import Mathlib

/-!
Verification of the conversation-orchestration core of the RAG-ChatBot
repository (chatbot/kyc_util.py, chatbot/utils.py, chatbot/main.py).

Strings are modelled as Lean `String`s; regex and substring routines from
the Python source are embedded as executable functions over `List Char`.
-/

set_option autoImplicit false

namespace RagBot

/-! ### Character and list utilities shared by several source functions -/

/-- Python whitespace characters recognised by `str.strip()` and the regex
class used as a separator in the old-format envelope pattern. -/
def isPyWS (c : Char) : Bool :=
  c == ' ' || c == '\t' || c == '\n' || c == '\r' ||
  c == Char.ofNat 11 || c == Char.ofNat 12

/-- Embedding of Python `str.strip()` on a character list. -/
def pyStrip (s : List Char) : List Char :=
  ((s.dropWhile isPyWS).reverse.dropWhile isPyWS).reverse

/-- Embedding of Python `str.strip()` on a `String`. -/
def pyStripStr (s : String) : String :=
  String.mk (pyStrip s.toList)

/-- Embedding of Python `str.lower()` (ASCII inputs). -/
def pyLower (s : String) : String :=
  String.mk (s.toList.map Char.toLower)

/-- Does `pat` match at the very beginning of `s`? -/
def startsWith : List Char → List Char → Bool
  | [], _ => true
  | _ :: _, [] => false
  | a :: as, c :: cs => a == c && startsWith as cs

/-- Embedding of Python `pat in s` substring containment. -/
def containsSub (pat : List Char) : List Char → Bool
  | [] => startsWith pat []
  | c :: cs => startsWith pat (c :: cs) || containsSub pat cs

/-- Characters strictly before the first occurrence of `sep`: the value of
Python `s.split(sep)[0]` when `sep` occurs in `s`. -/
def splitFirstPart (sep : List Char) : List Char → List Char
  | [] => []
  | c :: cs =>
    match startsWith sep (c :: cs) with
    | true => []
    | false => c :: splitFirstPart sep cs

/-- Consume the literal `lit` from the front of `s`, yielding the remainder. -/
def dropLit : List Char → List Char → Option (List Char)
  | [], s => some s
  | _ :: _, [] => none
  | a :: as, c :: cs => if a = c then dropLit as cs else none

/-! ### Field validators (chatbot/kyc_util.py lines 81-97) -/

/-- The fixed faculty catalog `FACULTIES` from kyc_util.py. -/
def FACULTIES : List String :=
  ["oral and dental",
   "pharmacy",
   "commerce and business administration",
   "engineering",
   "computer science",
   "economics and political science"]

/-- Character of `s` at index `i` (blank default outside the list). -/
def charAt (s : List Char) (i : Nat) : Char := s.getD i ' '

/-- Truthiness of Python `re.match(r"[^@]+@[^@]+\.[^@]+", email)`: some prefix
of the text decomposes as a nonempty run without `@`, then `@`, then a
nonempty run without `@`, then `.`, then one more character that is not `@`.
The search ranges over the position `p` of the `@` and the position `q` of
the chosen `.`. -/
def emailMatchCore (s : List Char) : Bool :=
  (List.range s.length).any (fun p =>
    (List.range s.length).any (fun q =>
      decide (1 ≤ p) && decide (p + 2 ≤ q) && decide (q + 1 < s.length) &&
      (charAt s p == '@') && (charAt s q == '.') &&
      ((s.take p).all (fun c => c != '@')) &&
      (((s.drop (p + 1)).take (q - (p + 1))).all (fun c => c != '@')) &&
      (charAt s (q + 1) != '@')))

/-- Embedding of `is_valid_email` from kyc_util.py. -/
def is_valid_email (email : String) : Bool :=
  emailMatchCore email.toList

/-- Embedding of `is_valid_mobile` from kyc_util.py:
`re.match(r"^\+?\d{10,15}$", mobile)` — an optional leading `+` followed by
10 to 15 digits, anchored at both ends (ASCII inputs). -/
def is_valid_mobile (mobile : String) : Bool :=
  let digits := match mobile.toList with
    | '+' :: rest => rest
    | cs => cs
  decide (10 ≤ digits.length) && decide (digits.length ≤ 15) &&
    digits.all (fun c => c.isDigit)

/-- Embedding of `is_valid_faculty` from kyc_util.py: case-insensitive
membership in the faculty catalog. -/
def is_valid_faculty (faculty : String) : Bool :=
  (FACULTIES.map pyLower).contains (pyLower faculty)

/-! ### Control-envelope parser (chatbot/utils.py, extract_variables_from_response) -/

/-- The sentinel marker `END_TOKEN = "[END_RESPONSE]"` from constants.py. -/
def END_TOKEN : String := "[END_RESPONSE]"

/-- Lazy capture of `(.*?)\)` with DOTALL: the characters strictly before the
first closing parenthesis, failing when no `)` follows. -/
def takeUntilParen : List Char → Option (List Char)
  | [] => none
  | c :: cs => if c = ')' then some [] else (takeUntilParen cs).map (fun t => c :: t)

/-- Match of the new-format pattern
`include_media=(true|false),keywords=\((.*?)\)` anchored at the start of
`s`, returning the flag and the raw keyword capture. -/
def parseEnvAt (s : List Char) : Option (Bool × List Char) :=
  match dropLit ("include_media=true,keywords=(".toList) s with
  | some rest => (takeUntilParen rest).map (fun ks => (true, ks))
  | none =>
    match dropLit ("include_media=false,keywords=(".toList) s with
    | some rest => (takeUntilParen rest).map (fun ks => (false, ks))
    | none => none

/-- Match of the old-format pattern
`\[END_RESPONSE\]\s*include_media=(true|false),keywords=\((.*?)\)` anchored
at the start of `s`. The greedy `\s*` is exact here because the literal that
follows starts with a non-whitespace character. -/
def parseOldAt (s : List Char) : Option (Bool × List Char) :=
  match dropLit END_TOKEN.toList s with
  | some rest => parseEnvAt (rest.dropWhile isPyWS)
  | none => none

/-- `re.search` semantics: try the anchored pattern at every start position,
left to right, returning the first match. -/
def reSearch {α : Type} (p : List Char → Option α) : List Char → Option α
  | [] => p []
  | c :: cs =>
    match p (c :: cs) with
    | some r => some r
    | none => reSearch p cs

/-- Python `str.split(",")` on a character list. -/
def splitOnComma : List Char → List (List Char)
  | [] => [[]]
  | c :: cs =>
    if c = ',' then [] :: splitOnComma cs
    else
      match splitOnComma cs with
      | [] => [[c]]
      | g :: gs => (c :: g) :: gs

/-- Keyword post-processing from the source:
`keywords_raw.strip()` split on commas, each piece stripped, empty pieces
dropped. -/
def cleanKeywords (raw : List Char) : List (List Char) :=
  ((splitOnComma (pyStrip raw)).map pyStrip).filter (fun k => k ≠ [])

/-- Core of `extract_variables_from_response`: new format first, then old
format, then the safe default `(False, [])`. -/
def extractVariablesCore (s : List Char) : Bool × List (List Char) :=
  match reSearch parseEnvAt s with
  | some (b, raw) => (b, cleanKeywords raw)
  | none =>
    match reSearch parseOldAt s with
    | some (b, raw) => (b, cleanKeywords raw)
    | none => (false, [])

/-- Embedding of `extract_variables_from_response` from chatbot/utils.py. -/
def extract_variables_from_response (s : String) : Bool × List String :=
  ((extractVariablesCore s.toList).1,
   (extractVariablesCore s.toList).2.map (fun k => String.mk k))

/-- Comparison definition for the refinement claim C10: extraction that only
ever consults the new-format pattern. -/
def extractNewOnlyCore (s : List Char) : Bool × List (List Char) :=
  match reSearch parseEnvAt s with
  | some (b, raw) => (b, cleanKeywords raw)
  | none => (false, [])

/-- Comparison definition for C10 at the `String` level. -/
def extract_variables_new_only (s : String) : Bool × List String :=
  ((extractNewOnlyCore s.toList).1,
   (extractNewOnlyCore s.toList).2.map (fun k => String.mk k))

/-! ### Final sentinel sanitization (chatbot/main.py lines 333-348 and
chatbot/kyc_util.py lines 573-580) -/

/-- Embedding of the final safety check: if `END_TOKEN` occurs in the
assembled message content, replace the content with
`content.split(END_TOKEN)[0]`, the part strictly before the first
occurrence. -/
def finalSanitizeCore (content : List Char) : List Char :=
  match containsSub END_TOKEN.toList content with
  | true => splitFirstPart END_TOKEN.toList content
  | false => content

/-- String-level wrapper of the final safety check. -/
def finalSanitize (content : String) : String :=
  String.mk (finalSanitizeCore content.toList)

end RagBot

/-- C7: the three field validators return the spec's stated values on the
stated inputs (email positive and two negatives, mobile positive and two
negatives, faculty case-insensitive positive and one negative). -/
theorem RagBot.validators_on_spec_inputs :
    RagBot.is_valid_email "a@b.co" = true ∧
    RagBot.is_valid_email "a.b.com" = false ∧
    RagBot.is_valid_email "a@b" = false ∧
    RagBot.is_valid_mobile "+201012345678" = true ∧
    RagBot.is_valid_mobile "123" = false ∧
    RagBot.is_valid_mobile "12345678901234567" = false ∧
    RagBot.is_valid_faculty "Engineering" = true ∧
    RagBot.is_valid_faculty "Biology" = false := by
  decide

/-- C3: the control-envelope parser satisfies the three-case contract from
the spec: sentinel plus `include_media=true,keywords=(a,b,c)` yields
`(true, ["a","b","c"])`; `include_media=false` with no keyword clause yields
`(false, [])`; text with no sentinel at all yields `(false, [])`. -/
theorem RagBot.extract_variables_three_cases :
    RagBot.extract_variables_from_response
      "Here is your answer. [END_RESPONSE] include_media=true,keywords=(a,b,c)" =
      (true, ["a", "b", "c"]) ∧
    RagBot.extract_variables_from_response
      "No visuals are needed here. include_media=false" = (false, []) ∧
    RagBot.extract_variables_from_response
      "The admission deadline is in August." = (false, []) := by
  decide

namespace RagBot

/-! ### Lemmas about the substring utilities -/

theorem startsWith_extend (p : List Char) :
    ∀ (t r : List Char), startsWith p t = true → startsWith p (t ++ r) = true := by
  induction p with
  | nil => intro t r _; simp [startsWith]
  | cons a as ih =>
    intro t r h
    cases t with
    | nil => simp [startsWith] at h
    | cons c cs =>
      simp only [startsWith, Bool.and_eq_true] at h
      simp only [List.cons_append, startsWith, Bool.and_eq_true]
      exact ⟨h.1, ih cs r h.2⟩

theorem startsWith_decomp (p : List Char) :
    ∀ (s : List Char), startsWith p s = true → ∃ r, s = p ++ r := by
  induction p with
  | nil => intro s _; exact ⟨s, rfl⟩
  | cons a as ih =>
    intro s h
    cases s with
    | nil => simp [startsWith] at h
    | cons c cs =>
      simp only [startsWith, Bool.and_eq_true, beq_iff_eq] at h
      obtain ⟨r, hr⟩ := ih cs h.2
      exact ⟨r, by simp [h.1.symm, hr]⟩

theorem splitFirstPart_front (sep : List Char) :
    ∀ (s : List Char), ∃ t, splitFirstPart sep s ++ t = s := by
  intro s
  induction s with
  | nil => exact ⟨[], rfl⟩
  | cons c cs ih =>
    cases h : startsWith sep (c :: cs) with
    | true => exact ⟨c :: cs, by simp [splitFirstPart, h]⟩
    | false =>
      obtain ⟨t, ht⟩ := ih
      exact ⟨t, by simp [splitFirstPart, h, ht]⟩

theorem containsSub_decomp (sep : List Char) :
    ∀ (s : List Char), containsSub sep s = true →
      ∃ r, s = splitFirstPart sep s ++ sep ++ r := by
  intro s
  induction s with
  | nil =>
    intro h
    simp only [containsSub] at h
    obtain ⟨r, hr⟩ := startsWith_decomp sep [] h
    exact ⟨r, by simpa [splitFirstPart] using hr⟩
  | cons c cs ih =>
    intro h
    cases h1 : startsWith sep (c :: cs) with
    | true =>
      obtain ⟨r, hr⟩ := startsWith_decomp sep (c :: cs) h1
      have hsplit : splitFirstPart sep (c :: cs) = [] := by
        simp [splitFirstPart, h1]
      rw [hsplit]
      exact ⟨r, by simpa using hr⟩
    | false =>
      simp only [containsSub, h1, Bool.false_or] at h
      obtain ⟨r, hr⟩ := ih h
      refine ⟨r, ?_⟩
      have hsplit : splitFirstPart sep (c :: cs) = c :: splitFirstPart sep cs := by
        simp [splitFirstPart, h1]
      rw [hsplit, List.cons_append, List.cons_append]
      exact congrArg (c :: ·) hr

theorem containsSub_splitFirstPart (sep : List Char) (hsep : sep ≠ []) :
    ∀ (s : List Char), containsSub sep (splitFirstPart sep s) = false := by
  intro s
  induction s with
  | nil =>
    cases sep with
    | nil => exact absurd rfl hsep
    | cons a as => simp [splitFirstPart, containsSub, startsWith]
  | cons c cs ih =>
    cases h1 : startsWith sep (c :: cs) with
    | true =>
      have hsplit : splitFirstPart sep (c :: cs) = [] := by
        simp [splitFirstPart, h1]
      rw [hsplit]
      cases sep with
      | nil => exact absurd rfl hsep
      | cons a as => simp [containsSub, startsWith]
    | false =>
      have hsplit : splitFirstPart sep (c :: cs) = c :: splitFirstPart sep cs := by
        simp [splitFirstPart, h1]
      rw [hsplit]
      simp only [containsSub, Bool.or_eq_false_iff]
      refine ⟨?_, ih⟩
      by_contra hsw
      simp only [Bool.not_eq_false] at hsw
      obtain ⟨t, ht⟩ := splitFirstPart_front sep cs
      have hext : startsWith sep ((c :: splitFirstPart sep cs) ++ t) = true :=
        startsWith_extend sep (c :: splitFirstPart sep cs) t hsw
      rw [List.cons_append, ht] at hext
      rw [h1] at hext
      exact Bool.false_ne_true hext

end RagBot

/-- C4: for every assembled visible text containing the sentinel, the final
sanitization pass replaces the content with the part strictly before the
first sentinel occurrence: the result followed by the sentinel and a
remainder reassembles the original, and the result itself never contains
the sentinel. -/
theorem RagBot.sentinel_guard_strips (content : List Char)
    (h : RagBot.containsSub RagBot.END_TOKEN.toList content = true) :
    RagBot.finalSanitizeCore content =
      RagBot.splitFirstPart RagBot.END_TOKEN.toList content ∧
    (∃ rest, content =
      RagBot.finalSanitizeCore content ++ RagBot.END_TOKEN.toList ++ rest) ∧
    RagBot.containsSub RagBot.END_TOKEN.toList (RagBot.finalSanitizeCore content) =
      false := by
  have hdef : RagBot.finalSanitizeCore content =
      RagBot.splitFirstPart RagBot.END_TOKEN.toList content := by
    unfold RagBot.finalSanitizeCore
    rw [h]
  refine ⟨hdef, ?_, ?_⟩
  · obtain ⟨r, hr⟩ := RagBot.containsSub_decomp RagBot.END_TOKEN.toList content h
    exact ⟨r, by rw [hdef]; simpa using hr⟩
  · rw [hdef]
    exact RagBot.containsSub_splitFirstPart RagBot.END_TOKEN.toList (by decide) content

/-- Witness for C4 at a concrete leaked response. -/
theorem RagBot.sentinel_guard_strips_witness :
    RagBot.containsSub RagBot.END_TOKEN.toList
      "Our labs are great! [END_RESPONSE] include_media=true,keywords=(labs)".toList
      = true ∧
    RagBot.containsSub RagBot.END_TOKEN.toList
      (RagBot.finalSanitizeCore
        "Our labs are great! [END_RESPONSE] include_media=true,keywords=(labs)".toList)
      = false :=
  ⟨by decide,
   (RagBot.sentinel_guard_strips
      "Our labs are great! [END_RESPONSE] include_media=true,keywords=(labs)".toList
      (by decide)).2.2⟩

namespace RagBot

/-! ### Lemmas for the two-format envelope parser -/

theorem dropLit_append : ∀ (lit s r : List Char), dropLit lit s = some r → s = lit ++ r := by
  intro lit
  induction lit with
  | nil =>
    intro s r h
    simp only [dropLit, Option.some.injEq] at h
    simp [h]
  | cons a as ih =>
    intro s r h
    cases s with
    | nil => simp [dropLit] at h
    | cons c cs =>
      simp only [dropLit] at h
      by_cases hac : a = c
      · rw [if_pos hac] at h
        have hcs := ih cs r h
        subst hac
        simp [hcs]
      · rw [if_neg hac] at h
        exact absurd h (by simp)

theorem dropWhile_front {α : Type} (p : α → Bool) :
    ∀ (l : List α), ∃ u, u ++ l.dropWhile p = l := by
  intro l
  induction l with
  | nil => exact ⟨[], rfl⟩
  | cons c cs ih =>
    cases h : p c with
    | true =>
      obtain ⟨u, hu⟩ := ih
      exact ⟨c :: u, by simp [List.dropWhile, h, hu]⟩
    | false => exact ⟨[], by simp [List.dropWhile, h]⟩

theorem parseEnvAt_nil : parseEnvAt [] = none := by decide

theorem reSearch_env_of_tail : ∀ (s t : List Char) (b : Bool × List Char),
    (∃ u, u ++ t = s) → parseEnvAt t = some b → reSearch parseEnvAt s ≠ none := by
  intro s
  induction s with
  | nil =>
    intro t b hu hp
    obtain ⟨u, hu⟩ := hu
    have ht : t = [] := (List.append_eq_nil.mp hu).2
    rw [ht, parseEnvAt_nil] at hp
    exact absurd hp (by simp)
  | cons c cs ih =>
    intro t b hu hp
    obtain ⟨u, hu⟩ := hu
    cases hpc : parseEnvAt (c :: cs) with
    | some r => simp [reSearch, hpc]
    | none =>
      have hsr : reSearch parseEnvAt (c :: cs) = reSearch parseEnvAt cs := by
        simp [reSearch, hpc]
      rw [hsr]
      cases u with
      | nil =>
        simp only [List.nil_append] at hu
        rw [hu] at hp
        rw [hpc] at hp
        exact absurd hp (by simp)
      | cons d ds =>
        simp only [List.cons_append, List.cons.injEq] at hu
        exact ih t b ⟨ds, hu.2⟩ hp

theorem parseOldAt_to_env : ∀ (s : List Char) (b : Bool × List Char),
    parseOldAt s = some b →
      ∃ t, (∃ u, u ++ t = s) ∧ parseEnvAt t = some b := by
  intro s b h
  unfold parseOldAt at h
  cases hd : dropLit END_TOKEN.toList s with
  | none => rw [hd] at h; exact absurd h (by simp)
  | some rest =>
    rw [hd] at h
    have hs : s = END_TOKEN.toList ++ rest := dropLit_append _ s rest hd
    obtain ⟨u, hu⟩ := dropWhile_front isPyWS rest
    refine ⟨rest.dropWhile isPyWS, ⟨END_TOKEN.toList ++ u, ?_⟩, h⟩
    rw [List.append_assoc, hu]
    exact hs.symm

theorem reSearch_old_imp_env : ∀ (s : List Char),
    reSearch parseOldAt s ≠ none → reSearch parseEnvAt s ≠ none := by
  intro s
  induction s with
  | nil => intro h; exact absurd (by decide) h
  | cons c cs ih =>
    intro h
    cases hpo : parseOldAt (c :: cs) with
    | some b =>
      obtain ⟨t, htu, hpe⟩ := parseOldAt_to_env (c :: cs) b hpo
      exact reSearch_env_of_tail (c :: cs) t b htu hpe
    | none =>
      have h2 : reSearch parseOldAt (c :: cs) = reSearch parseOldAt cs := by
        simp [reSearch, hpo]
      rw [h2] at h
      have h3 := ih h
      cases hpe : parseEnvAt (c :: cs) with
      | some r => simp [reSearch, hpe]
      | none =>
        have h4 : reSearch parseEnvAt (c :: cs) = reSearch parseEnvAt cs := by
          simp [reSearch, hpe]
        rw [h4]
        exact h3

theorem extractVariablesCore_eq_new (l : List Char) :
    extractVariablesCore l = extractNewOnlyCore l := by
  unfold extractVariablesCore extractNewOnlyCore
  cases h1 : reSearch parseEnvAt l with
  | some r => obtain ⟨b, raw⟩ := r; rfl
  | none =>
    cases h2 : reSearch parseOldAt l with
    | some b =>
      exfalso
      have hne : reSearch parseOldAt l ≠ none := by rw [h2]; simp
      exact reSearch_old_imp_env l hne h1
    | none => rfl

end RagBot

/-- C10: the old-format branch of `extract_variables_from_response` is
redundant: every input on which the old-format pattern matches also matches
the new-format pattern tried first, so the two-format parser is
extensionally equal to extraction that only consults the new-format
pattern. -/
theorem RagBot.old_format_branch_redundant (s : String) :
    RagBot.extract_variables_from_response s = RagBot.extract_variables_new_only s := by
  unfold RagBot.extract_variables_from_response RagBot.extract_variables_new_only
  rw [RagBot.extractVariablesCore_eq_new]

namespace RagBot

/-! ### KYC record update (chatbot/kyc_util.py, handle_kyc lines 453-489) -/

/-- The four-field identity record held in `cl.user_session["kyc"]`; a field
absent from the Python dict is `none`. -/
structure KycRecord where
  name : Option String
  email : Option String
  mobile : Option String
  faculty : Option String
deriving DecidableEq

/-- The empty identity record `{}`. -/
def emptyKyc : KycRecord := ⟨none, none, none, none⟩

/-- One field of the update loop: `if extracted.get(key):
kyc[key] = extracted[key].strip()` — a truthy (non-empty) extracted string
overwrites the prior value, stripped. -/
def updateField (old ext : Option String) : Option String :=
  match ext with
  | none => old
  | some s =>
    match s == "" with
    | true => old
    | false => some (pyStripStr s)

/-- One validation block of `handle_kyc`: a present field that fails its
validator is evicted from the record and reported, mirroring
`validation_errors.append(...)` followed by `kyc.pop(...)`. -/
def evictInvalid (valid : String → Bool) (label : String) (o : Option String) :
    Option String × List String :=
  match o with
  | none => (none, [])
  | some v =>
    match valid v with
    | true => (some v, [])
    | false => (none, [label ++ v])

/-- The update-and-validate step of `handle_kyc`: overwrite fields from the
extraction result, then evict invalid email, mobile and faculty (the name is
never validated). Returns the new record and the validation error list. -/
def kycUpdate (kyc ext : KycRecord) : KycRecord × List String :=
  ({ name := updateField kyc.name ext.name,
     email := (evictInvalid is_valid_email "Invalid email: "
       (updateField kyc.email ext.email)).1,
     mobile := (evictInvalid is_valid_mobile "Invalid mobile: "
       (updateField kyc.mobile ext.mobile)).1,
     faculty := (evictInvalid is_valid_faculty "Invalid faculty: "
       (updateField kyc.faculty ext.faculty)).1 },
   (evictInvalid is_valid_email "Invalid email: "
     (updateField kyc.email ext.email)).2 ++
   (evictInvalid is_valid_mobile "Invalid mobile: "
     (updateField kyc.mobile ext.mobile)).2 ++
   (evictInvalid is_valid_faculty "Invalid faculty: "
     (updateField kyc.faculty ext.faculty)).2)

/-- `missing = [f for f in required_fields if f not in kyc]`. -/
def missingFields (r : KycRecord) : List String :=
  (match r.name with | some _ => [] | none => ["name"]) ++
  (match r.email with | some _ => [] | none => ["email"]) ++
  (match r.mobile with | some _ => [] | none => ["mobile"]) ++
  (match r.faculty with | some _ => [] | none => ["faculty"])

/-- Substring containment on strings, Python `pat in s`. -/
def hasSub (pat s : String) : Bool := containsSub pat.toList s.toList

/-- Embedding of `extract_kyc_variables_from_response` from kyc_util.py:
scan the generated message for the `COMPLETION_STATUS` and
`SHOW_REGISTER_BUTTON` markers (defaults false). -/
def extract_kyc_variables_from_response (t : String) : Bool × Bool :=
  (match hasSub "COMPLETION_STATUS=true" t with
   | true => true
   | false => match hasSub "COMPLETION_STATUS=false" t with
     | true => false
     | false => false,
   match hasSub "SHOW_REGISTER_BUTTON=true" t with
   | true => true
   | false => match hasSub "SHOW_REGISTER_BUTTON=false" t with
     | true => false
     | false => false)

/-- The decision core of one `handle_kyc` collecting turn: update and
validate the record, then declare completion. With a generated message
(`some txt`, the streaming and invoke paths) the returned flag is the
`COMPLETION_STATUS` extracted from the message text; on the deterministic
fallback path (`none`, message chain unavailable or failed) it is
`not missing and not validation_errors`. -/
def handleKycStep (kyc ext : KycRecord) (responseText : Option String) :
    Bool × KycRecord :=
  match responseText with
  | some txt => ((extract_kyc_variables_from_response txt).1, (kycUpdate kyc ext).1)
  | none =>
    ((missingFields (kycUpdate kyc ext).1).isEmpty && (kycUpdate kyc ext).2.isEmpty,
     (kycUpdate kyc ext).1)

/-- The spec's completeness notion: all four fields present and the three
validated fields pass their validators. -/
def recordComplete (r : KycRecord) : Prop :=
  (∃ n, r.name = some n) ∧
  (∃ e, r.email = some e ∧ is_valid_email e = true) ∧
  (∃ m, r.mobile = some m ∧ is_valid_mobile m = true) ∧
  (∃ f, r.faculty = some f ∧ is_valid_faculty f = true)

/-! ### Lemmas about the update step -/

theorem evict_fst_valid (p : String → Bool) (lbl : String) (o : Option String) :
    ∀ v, (evictInvalid p lbl o).1 = some v → p v = true := by
  intro v h
  cases o with
  | none => simp [evictInvalid] at h
  | some w =>
    cases hv : p w with
    | true =>
      simp only [evictInvalid, hv, Option.some.injEq] at h
      rw [← h]
      exact hv
    | false => simp [evictInvalid, hv] at h

theorem evict_errs_of_some (p : String → Bool) (lbl : String) (o : Option String) :
    ∀ v, (evictInvalid p lbl o).1 = some v → (evictInvalid p lbl o).2 = [] := by
  intro v h
  cases o with
  | none => simp [evictInvalid] at h
  | some w =>
    cases hv : p w with
    | true => simp [evictInvalid, hv]
    | false => simp [evictInvalid, hv] at h

theorem missing_nil_iff (r : KycRecord) :
    missingFields r = [] ↔
      (r.name.isSome = true ∧ r.email.isSome = true ∧
       r.mobile.isSome = true ∧ r.faculty.isSome = true) := by
  obtain ⟨n, e, m, f⟩ := r
  cases n <;> cases e <;> cases m <;> cases f <;> simp [missingFields]

end RagBot

/-- C9: after every `handle_kyc` update step, a present email/mobile/faculty
field passes its validator, while the name field is never validated — any
non-empty extracted string is stored (stripped) regardless of content. -/
theorem RagBot.kyc_update_validates (kyc ext : RagBot.KycRecord) :
    (∀ e, (RagBot.kycUpdate kyc ext).1.email = some e →
      RagBot.is_valid_email e = true) ∧
    (∀ m, (RagBot.kycUpdate kyc ext).1.mobile = some m →
      RagBot.is_valid_mobile m = true) ∧
    (∀ f, (RagBot.kycUpdate kyc ext).1.faculty = some f →
      RagBot.is_valid_faculty f = true) ∧
    (∀ s, s ≠ "" →
      (RagBot.kycUpdate kyc { ext with name := some s }).1.name =
        some (RagBot.pyStripStr s)) := by
  refine ⟨fun e he => RagBot.evict_fst_valid _ _ _ e he,
          fun m hm => RagBot.evict_fst_valid _ _ _ m hm,
          fun f hf => RagBot.evict_fst_valid _ _ _ f hf, ?_⟩
  intro s hs
  show RagBot.updateField kyc.name (some s) = some (RagBot.pyStripStr s)
  have hb : (s == "") = false := beq_eq_false_iff_ne.mpr hs
  simp [RagBot.updateField, hb]

/-- Witness for C9: a valid extraction is kept, and an arbitrary non-empty
name that no validator would accept is stored as-is. -/
theorem RagBot.kyc_update_validates_witness :
    (RagBot.kycUpdate RagBot.emptyKyc
       ⟨some "Ali", some "ali@x.com", some "+201111111111", some "engineering"⟩).1.email
      = some "ali@x.com" ∧
    RagBot.is_valid_email "ali@x.com" = true ∧
    (RagBot.kycUpdate RagBot.emptyKyc
       { (⟨some "Ali", some "ali@x.com", some "+201111111111", some "engineering"⟩ :
          RagBot.KycRecord) with name := some "not-an-actual-name-%%" }).1.name
      = some (RagBot.pyStripStr "not-an-actual-name-%%") :=
  ⟨by decide,
   (RagBot.kyc_update_validates RagBot.emptyKyc
     ⟨some "Ali", some "ali@x.com", some "+201111111111", some "engineering"⟩).1
     "ali@x.com" (by decide),
   (RagBot.kyc_update_validates RagBot.emptyKyc
     ⟨some "Ali", some "ali@x.com", some "+201111111111", some "engineering"⟩).2.2.2
     "not-an-actual-name-%%" (by decide)⟩

/-- C1 counterexample: with an empty record and no extracted fields, a
generated message carrying `COMPLETION_STATUS=true` makes `handle_kyc`
declare completion even though every required field is absent — completion
is not equivalent to the four fields validating. -/
theorem RagBot.kyc_completion_counterexample :
    (RagBot.handleKycStep RagBot.emptyKyc RagBot.emptyKyc
      (some "Congratulations! COMPLETION_STATUS=true SHOW_REGISTER_BUTTON=true")).1
      = true ∧
    (RagBot.handleKycStep RagBot.emptyKyc RagBot.emptyKyc
      (some "Congratulations! COMPLETION_STATUS=true SHOW_REGISTER_BUTTON=true")).2.email
      = none := by
  decide

/-- C1 amended: on the deterministic fallback path completion is declared
iff the updated record is complete with all validated fields passing; on
the generated-message path the declared completion is exactly the
`COMPLETION_STATUS` flag parsed from the model output, independent of the
record. -/
theorem RagBot.kyc_completion_amended (kyc ext : RagBot.KycRecord) :
    ((RagBot.handleKycStep kyc ext none).1 = true ↔
      RagBot.recordComplete (RagBot.kycUpdate kyc ext).1) ∧
    (∀ txt, (RagBot.handleKycStep kyc ext (some txt)).1 =
      (RagBot.extract_kyc_variables_from_response txt).1) := by
  constructor
  · show ((RagBot.missingFields (RagBot.kycUpdate kyc ext).1).isEmpty &&
      (RagBot.kycUpdate kyc ext).2.isEmpty) = true ↔ _
    rw [Bool.and_eq_true, List.isEmpty_iff, List.isEmpty_iff]
    constructor
    · rintro ⟨hmiss, _⟩
      have hs := (RagBot.missing_nil_iff _).mp hmiss
      obtain ⟨n, hn⟩ := Option.isSome_iff_exists.mp hs.1
      obtain ⟨e, he⟩ := Option.isSome_iff_exists.mp hs.2.1
      obtain ⟨m, hm⟩ := Option.isSome_iff_exists.mp hs.2.2.1
      obtain ⟨f, hf⟩ := Option.isSome_iff_exists.mp hs.2.2.2
      exact ⟨⟨n, hn⟩,
        ⟨e, he, RagBot.evict_fst_valid _ _ _ e he⟩,
        ⟨m, hm, RagBot.evict_fst_valid _ _ _ m hm⟩,
        ⟨f, hf, RagBot.evict_fst_valid _ _ _ f hf⟩⟩
    · rintro ⟨⟨n, hn⟩, ⟨e, he, _⟩, ⟨m, hm, _⟩, ⟨f, hf, _⟩⟩
      constructor
      · exact (RagBot.missing_nil_iff _).mpr
          ⟨by simp [hn], by simp [he], by simp [hm], by simp [hf]⟩
      · have he2 := RagBot.evict_errs_of_some RagBot.is_valid_email
          "Invalid email: " (RagBot.updateField kyc.email ext.email) e he
        have hm2 := RagBot.evict_errs_of_some RagBot.is_valid_mobile
          "Invalid mobile: " (RagBot.updateField kyc.mobile ext.mobile) m hm
        have hf2 := RagBot.evict_errs_of_some RagBot.is_valid_faculty
          "Invalid faculty: " (RagBot.updateField kyc.faculty ext.faculty) f hf
        show (RagBot.evictInvalid RagBot.is_valid_email "Invalid email: "
            (RagBot.updateField kyc.email ext.email)).2 ++
          (RagBot.evictInvalid RagBot.is_valid_mobile "Invalid mobile: "
            (RagBot.updateField kyc.mobile ext.mobile)).2 ++
          (RagBot.evictInvalid RagBot.is_valid_faculty "Invalid faculty: "
            (RagBot.updateField kyc.faculty ext.faculty)).2 = []
        rw [he2, hm2, hf2]
        rfl
  · intro txt
    rfl

namespace RagBot

/-! ### History trimming (chatbot/utils.py, trim_chat_history lines 151-188) -/

/-- One raw history entry `{"role": ..., "content": ...}`. -/
structure RawMsg where
  role : String
  content : String
deriving DecidableEq

/-- A LangChain message: `HumanMessage` or `AIMessage`. -/
inductive LCMessage
  | human (content : String)
  | ai (content : String)
deriving DecidableEq

/-- Is the message a `HumanMessage`? -/
def isHumanMsg : LCMessage → Bool
  | .human _ => true
  | .ai _ => false

/-- Is the message an `AIMessage`? -/
def isAiMsg : LCMessage → Bool
  | .ai _ => true
  | .human _ => false

/-- The role-conversion loop of `trim_chat_history`: `"user"` becomes
`HumanMessage`, `"assistant"` becomes `AIMessage`, any other role is
skipped. -/
def toMessages : List RawMsg → List LCMessage
  | [] => []
  | m :: ms =>
    match m.role == "user" with
    | true => .human m.content :: toMessages ms
    | false =>
      match m.role == "assistant" with
      | true => .ai m.content :: toMessages ms
      | false => toMessages ms

/-- Total approximate token count of a message list under a per-message
counter. -/
def sumTokens (tok : LCMessage → Nat) (l : List LCMessage) : Nat :=
  (l.map tok).sum

/-- The longest suffix whose total count fits the budget
(`strategy="last"`, `allow_partial=False`). -/
def lastSuffixWithin (tok : LCMessage → Nat) (budget : Nat) :
    List LCMessage → List LCMessage
  | [] => []
  | m :: ms =>
    match decide (sumTokens tok (m :: ms) ≤ budget) with
    | true => m :: ms
    | false => lastSuffixWithin tok budget ms

/-- Drop leading messages until the first `HumanMessage`
(`start_on="human"`). -/
def startOnHuman (l : List LCMessage) : List LCMessage :=
  l.dropWhile (fun m => !isHumanMsg m)

/-- Drop trailing messages after the last `AIMessage` (`end_on=("ai")`):
keep the longest front that ends on an `AIMessage`. -/
def endOnAi : List LCMessage → List LCMessage
  | [] => []
  | m :: ms =>
    match endOnAi ms with
    | [] =>
      match isAiMsg m with
      | true => [m]
      | false => []
    | r :: rs => m :: r :: rs

/-- Modelled from the spec: the external LangChain
`trim_messages(strategy="last", token_counter=..., max_tokens=...,
start_on="human", end_on=("ai"), include_system=False, allow_partial=False)`
is not repository code; section 4.2 of the spec describes its output as the
suffix of whole turns that fits the budget, starting on a user turn and
ending on an assistant turn. -/
def trimMessagesModel (tok : LCMessage → Nat) (budget : Nat)
    (l : List LCMessage) : List LCMessage :=
  endOnAi (startOnHuman (lastSuffixWithin tok budget l))

/-- `MAX_HISTORY_TOKENS` from constants.py. -/
def MAX_HISTORY_TOKENS : Nat := 2000

/-- Embedding of `trim_chat_history`, parametric in the per-message counter
that abstracts the external `count_tokens_approximately`. -/
def trim_chat_history (tok : LCMessage → Nat) (raw : List RawMsg) :
    List LCMessage :=
  trimMessagesModel tok MAX_HISTORY_TOKENS (toMessages raw)

/-! ### Lemmas about the trimming pipeline -/

theorem dropWhile_head_not {α : Type} (p : α → Bool) :
    ∀ (l : List α) (m : α), (l.dropWhile p).head? = some m → p m = false := by
  intro l
  induction l with
  | nil => intro m h; simp [List.dropWhile] at h
  | cons c cs ih =>
    intro m h
    cases hc : p c with
    | true =>
      rw [List.dropWhile_cons, if_pos (by simp [hc])] at h
      exact ih m h
    | false =>
      rw [List.dropWhile_cons, if_neg (by simp [hc])] at h
      simp only [List.head?_cons, Option.some.injEq] at h
      rw [← h]
      exact hc

theorem endOnAi_front : ∀ (l : List LCMessage), ∃ t, endOnAi l ++ t = l := by
  intro l
  induction l with
  | nil => exact ⟨[], rfl⟩
  | cons m ms ih =>
    cases hr : endOnAi ms with
    | nil =>
      cases ha : isAiMsg m with
      | true => exact ⟨ms, by simp [endOnAi, hr, ha]⟩
      | false => exact ⟨m :: ms, by simp [endOnAi, hr, ha]⟩
    | cons r rs =>
      obtain ⟨t, ht⟩ := ih
      refine ⟨t, ?_⟩
      rw [hr] at ht
      simp [endOnAi, hr, ht]

theorem endOnAi_last : ∀ (l : List LCMessage) (m : LCMessage),
    (endOnAi l).getLast? = some m → isAiMsg m = true := by
  intro l
  induction l with
  | nil => intro m h; simp [endOnAi] at h
  | cons c cs ih =>
    intro m h
    cases hr : endOnAi cs with
    | nil =>
      cases ha : isAiMsg c with
      | true =>
        simp only [endOnAi, hr, ha, List.getLast?_singleton, Option.some.injEq] at h
        rw [← h]
        exact ha
      | false => simp [endOnAi, hr, ha] at h
    | cons r rs =>
      simp only [endOnAi, hr] at h
      rw [List.getLast?_cons_cons] at h
      rw [← hr] at h
      exact ih m h

theorem endOnAi_id : ∀ (l : List LCMessage),
    (∀ m, l.getLast? = some m → isAiMsg m = true) → endOnAi l = l := by
  intro l
  induction l with
  | nil => intro _; rfl
  | cons c cs ih =>
    intro h
    cases cs with
    | nil =>
      have hc : isAiMsg c = true := h c (by simp)
      simp [endOnAi, hc]
    | cons d ds =>
      have hcs : endOnAi (d :: ds) = d :: ds := by
        apply ih
        intro m hm
        apply h
        rw [List.getLast?_cons_cons]
        exact hm
      have hstep : endOnAi (c :: d :: ds) =
          match endOnAi (d :: ds) with
          | [] =>
            match isAiMsg c with
            | true => [c]
            | false => []
          | r :: rs => c :: r :: rs := rfl
      rw [hstep, hcs]

end RagBot

namespace RagBot

theorem head_append_left {α : Type} (a b : List α) (m : α) :
    a.head? = some m → (a ++ b).head? = some m := by
  cases a <;> simp

theorem trim_head (tok : LCMessage → Nat) (b : Nat) (l : List LCMessage) :
    ∀ m, (trimMessagesModel tok b l).head? = some m → isHumanMsg m = true := by
  intro m h
  obtain ⟨t, ht⟩ := endOnAi_front (startOnHuman (lastSuffixWithin tok b l))
  have hx : (startOnHuman (lastSuffixWithin tok b l)).head? = some m := by
    rw [← ht]
    exact head_append_left _ t m h
  have hd := dropWhile_head_not (fun x => !isHumanMsg x) _ m hx
  simpa using hd

/-- A sample per-message token counter for concrete evaluations. -/
def sampleTok : LCMessage → Nat := fun _ => 1

/-- A sample already-trimmed raw history. -/
def sampleRaw : List RawMsg := [⟨"user", "hi"⟩, ⟨"assistant", "hello"⟩]

end RagBot

/-- C8: `trim_chat_history` is idempotent on within-budget histories: if the
role-tagged form of the raw history is the output of a previous trim and its
total approximate token count fits the budget, trimming again returns it
unchanged, still starting on a user turn and ending on an assistant turn. -/
theorem RagBot.trim_chat_history_idempotent (tok : RagBot.LCMessage → Nat)
    (raw : List RagBot.RawMsg)
    (hprev : ∃ tok0 b0 l0, RagBot.toMessages raw =
      RagBot.trimMessagesModel tok0 b0 l0)
    (hbudget : RagBot.sumTokens tok (RagBot.toMessages raw) ≤
      RagBot.MAX_HISTORY_TOKENS) :
    RagBot.trim_chat_history tok raw = RagBot.toMessages raw ∧
    (∀ m, (RagBot.trim_chat_history tok raw).head? = some m →
      RagBot.isHumanMsg m = true) ∧
    (∀ m, (RagBot.trim_chat_history tok raw).getLast? = some m →
      RagBot.isAiMsg m = true) := by
  obtain ⟨tok0, b0, l0, hpr⟩ := hprev
  have hhead : ∀ m, (RagBot.toMessages raw).head? = some m →
      RagBot.isHumanMsg m = true := by
    rw [hpr]
    exact RagBot.trim_head tok0 b0 l0
  have hlast : ∀ m, (RagBot.toMessages raw).getLast? = some m →
      RagBot.isAiMsg m = true := by
    rw [hpr]
    exact fun m => RagBot.endOnAi_last _ m
  have h1 : RagBot.lastSuffixWithin tok RagBot.MAX_HISTORY_TOKENS
      (RagBot.toMessages raw) = RagBot.toMessages raw := by
    cases hc : RagBot.toMessages raw with
    | nil => rfl
    | cons m ms =>
      have hle : RagBot.sumTokens tok (m :: ms) ≤ RagBot.MAX_HISTORY_TOKENS := by
        rw [← hc]
        exact hbudget
      have hd : decide (RagBot.sumTokens tok (m :: ms) ≤
          RagBot.MAX_HISTORY_TOKENS) = true := decide_eq_true hle
      simp [RagBot.lastSuffixWithin, hd]
  have h2 : RagBot.startOnHuman (RagBot.toMessages raw) =
      RagBot.toMessages raw := by
    cases hc : RagBot.toMessages raw with
    | nil => rfl
    | cons m ms =>
      have hm : RagBot.isHumanMsg m = true := hhead m (by rw [hc]; simp)
      simp [RagBot.startOnHuman, List.dropWhile_cons, hm]
  have h3 : RagBot.endOnAi (RagBot.toMessages raw) = RagBot.toMessages raw :=
    RagBot.endOnAi_id _ hlast
  have htrim : RagBot.trim_chat_history tok raw = RagBot.toMessages raw := by
    unfold RagBot.trim_chat_history RagBot.trimMessagesModel
    rw [h1, h2, h3]
  refine ⟨htrim, ?_, ?_⟩
  · intro m hm
    exact hhead m (by rw [← htrim]; exact hm)
  · intro m hm
    exact hlast m (by rw [← htrim]; exact hm)

/-- Witness for C8 on a two-turn within-budget history. -/
theorem RagBot.trim_chat_history_idempotent_witness :
    (∃ tok0 b0 l0, RagBot.toMessages RagBot.sampleRaw =
      RagBot.trimMessagesModel tok0 b0 l0) ∧
    RagBot.sumTokens RagBot.sampleTok (RagBot.toMessages RagBot.sampleRaw) ≤
      RagBot.MAX_HISTORY_TOKENS ∧
    RagBot.trim_chat_history RagBot.sampleTok RagBot.sampleRaw =
      RagBot.toMessages RagBot.sampleRaw :=
  ⟨⟨RagBot.sampleTok, RagBot.MAX_HISTORY_TOKENS,
    RagBot.toMessages RagBot.sampleRaw, by decide⟩,
   by decide,
   (RagBot.trim_chat_history_idempotent RagBot.sampleTok RagBot.sampleRaw
     ⟨RagBot.sampleTok, RagBot.MAX_HISTORY_TOKENS,
      RagBot.toMessages RagBot.sampleRaw, by decide⟩
     (by decide)).1⟩

namespace RagBot

/-! ### Retry policy (chatbot/utils.py, run_chain_with_retry lines 303-388) -/

/-- The two failure classes relevant to the retry policy: the quota
exception `ResourceExhausted` and any other exception class. -/
inductive ChainExc
  | resourceExhausted
  | otherFailure
deriving DecidableEq

/-- Behaviour of one underlying `chain.invoke` call. -/
inductive ChainAttempt
  | succeeds (content : String)
  | raises (e : ChainExc)

/-- Result of a call as the tenacity wrapper sees it: a normal return or a
propagating exception. -/
inductive CallOutcome
  | returns (s : String)
  | throws (e : ChainExc)
deriving DecidableEq

/-- The canned apology content of the `FallbackResult` object. -/
def apologyMessage : String :=
  "I apologize, but I'm experiencing technical difficulties. Please try again."

/-- The body of `run_chain_with_retry`: `chain.invoke` inside
`try ... except Exception`, so every exception class — `ResourceExhausted`
included, since it subclasses `Exception` — is caught and turned into the
apology `FallbackResult`; the body itself never raises. -/
def runChainBody (a : ChainAttempt) : String :=
  match a with
  | .succeeds c => c
  | .raises _ => apologyMessage

/-- Modelled from the spec: the external tenacity decorator
`@retry(retry_if_exception_type(ResourceExhausted),
wait_random_exponential, stop_after_attempt(5), reraise=True)` re-invokes
the wrapped callable while it raises `ResourceExhausted`, up to the given
number of attempts, re-raising on exhaustion; a normal return or any other
exception ends the loop at once. Returns the outcome and the number of
attempts used. -/
def tenacityGo (f : Nat → CallOutcome) (attempt : Nat) :
    Nat → CallOutcome × Nat
  | 0 => (f attempt, attempt)
  | remaining + 1 =>
    match f attempt with
    | .returns s => (.returns s, attempt)
    | .throws .resourceExhausted =>
      match remaining with
      | 0 => (.throws .resourceExhausted, attempt)
      | left + 1 => tenacityGo f (attempt + 1) (left + 1)
    | .throws .otherFailure => (.throws .otherFailure, attempt)

/-- `stop_after_attempt(5)`. -/
def STOP_ATTEMPTS : Nat := 5

/-- Embedding of the decorated `run_chain_with_retry`: tenacity drives the
exception-swallowing body, starting at attempt 1. -/
def run_chain_with_retry (behavior : Nat → ChainAttempt) : CallOutcome × Nat :=
  tenacityGo (fun n => .returns (runChainBody (behavior n))) 1 STOP_ATTEMPTS

/-! ### Cached chain accessors (chatbot/utils.py lines 35-149) -/

/-- The module-level cache globals. A cached chain is represented by the
credential value it was constructed under. -/
structure CacheState where
  cachedApiKey : Option String
  cachedLlmChain : Option String
  cachedMediaLlmChain : Option String
  cachedMediaDecisionChain : Option String
  cachedVectorStore : Option String
deriving DecidableEq

/-- The initial module state: every global is `None`. -/
def initCache : CacheState :=
  ⟨none, none, none, none, none⟩

/-- Embedding of `get_cached_llm_chain` (success path of chain creation):
rebuild when the current credential differs from the shared cached one or
no chain is cached, else return the cached chain. -/
def get_cached_llm_chain (currentApiKey : String) (s : CacheState) :
    Option String × CacheState :=
  match decide (s.cachedApiKey ≠ some currentApiKey ∨ s.cachedLlmChain = none) with
  | true =>
    (some currentApiKey,
     { s with cachedApiKey := some currentApiKey,
              cachedLlmChain := some currentApiKey,
              cachedVectorStore := some currentApiKey })
  | false => (s.cachedLlmChain, s)

/-- Embedding of `get_cached_media_llm_chain`. -/
def get_cached_media_llm_chain (currentApiKey : String) (s : CacheState) :
    Option String × CacheState :=
  match decide (s.cachedApiKey ≠ some currentApiKey ∨
      s.cachedMediaLlmChain = none) with
  | true =>
    (some currentApiKey,
     { s with cachedApiKey := some currentApiKey,
              cachedMediaLlmChain := some currentApiKey })
  | false => (s.cachedMediaLlmChain, s)

/-- Embedding of `get_cached_media_decision_chain`. -/
def get_cached_media_decision_chain (currentApiKey : String) (s : CacheState) :
    Option String × CacheState :=
  match decide (s.cachedApiKey ≠ some currentApiKey ∨
      s.cachedMediaDecisionChain = none) with
  | true =>
    (some currentApiKey,
     { s with cachedApiKey := some currentApiKey,
              cachedMediaDecisionChain := some currentApiKey })
  | false => (s.cachedMediaDecisionChain, s)

/-! ### Media selection (chatbot/main.py lines 209-249) -/

/-- A media catalog document: its URL and the value stored under the
`description` key when present (the documents actually carry
`image_description`/`video_description`, so this key is typically absent). -/
structure MediaDoc where
  url : String
  descriptionKey : Option String
deriving DecidableEq

/-- The parsed JSON object returned by the media selector chain. -/
structure MediaSelection where
  selected_images : List String
  selected_videos : List String
  image_descriptions : List String
  video_descriptions : List String
deriving DecidableEq

/-- Python `", ".join(...)`. -/
def joinComma : List String → String
  | [] => ""
  | [s] => s
  | s :: t :: rest => s ++ ", " ++ joinComma (t :: rest)

/-- The outcome of the media-selection sub-stage. -/
structure SelectedMedia where
  selected_images : List String
  selected_videos : List String
  image_descriptions : String
  video_descriptions : String
deriving DecidableEq

/-- Embedding of the selection sub-stage of `handle_message`: on a
successfully parsed selector response (`some parsed`) the selected lists
are taken from the JSON as-is; on `json.JSONDecodeError` (`none`) the
fallback takes the first 3 found images and videos, with descriptions read
from the (typically absent) `description` key. -/
def selectMediaStage (images videos : List MediaDoc)
    (parsed : Option MediaSelection) : SelectedMedia :=
  match parsed with
  | some d =>
    ⟨d.selected_images, d.selected_videos,
     joinComma d.image_descriptions, joinComma d.video_descriptions⟩
  | none =>
    ⟨(images.take 3).map (fun i => i.url),
     (videos.take 3).map (fun v => v.url),
     joinComma ((images.take 3).map (fun i => i.descriptionKey.getD "No description")),
     joinComma ((videos.take 3).map (fun v => v.descriptionKey.getD "No description"))⟩

end RagBot

/-- C2: evaluation at the failing behaviour. The body's blanket
`except Exception` catches `ResourceExhausted` before tenacity can see it,
so a chain that always raises the quota exception produces the canned
apology after a single attempt — no retry, no backoff, no re-raise. The
third conjunct shows the decorator's policy itself, fed the raw exceptions,
would have retried to 5 attempts and re-raised. -/
theorem RagBot.retry_policy_defeated :
    RagBot.run_chain_with_retry
      (fun _ => RagBot.ChainAttempt.raises RagBot.ChainExc.resourceExhausted) =
      (RagBot.CallOutcome.returns RagBot.apologyMessage, 1) ∧
    RagBot.run_chain_with_retry
      (fun _ => RagBot.ChainAttempt.raises RagBot.ChainExc.otherFailure) =
      (RagBot.CallOutcome.returns RagBot.apologyMessage, 1) ∧
    RagBot.tenacityGo
      (fun _ => RagBot.CallOutcome.throws RagBot.ChainExc.resourceExhausted)
      1 RagBot.STOP_ATTEMPTS =
      (RagBot.CallOutcome.throws RagBot.ChainExc.resourceExhausted, 5) := by
  decide

/-- C6: evaluation at the interleaved rotation. Building the main chain
under credential k1, then fetching the media chain after a rotation to k2
(which overwrites the shared cached key), makes the next
`get_cached_llm_chain` call under k2 return the chain still built under
k1 — a stale chain constructed under a previous credential. -/
theorem RagBot.cached_chain_staleness :
    (RagBot.get_cached_llm_chain "k2"
      (RagBot.get_cached_media_llm_chain "k2"
        (RagBot.get_cached_llm_chain "k1" RagBot.initCache).2).2).1 = some "k1" ∧
    (some "k1" : Option String) ≠ some "k2" := by
  decide

/-- C5 counterexample: on the parse-success path the selector's lists are
forwarded without truncation, so a parsed selection carrying four image
URLs yields four selected images, breaking the claimed cap of 3. -/
theorem RagBot.media_cap_counterexample :
    (RagBot.selectMediaStage [] []
      (some ⟨["u1", "u2", "u3", "u4"], [], [], []⟩)).selected_images.length = 4 ∧
    ¬ ((RagBot.selectMediaStage [] []
      (some ⟨["u1", "u2", "u3", "u4"], [], [], []⟩)).selected_images.length ≤ 3) := by
  decide

/-- C5 amended: the at-most-3 cap is enforced by the code only on the
malformed-output fallback path (first 3 candidates of each kind); on the
parse-success path the selector's lists are used exactly as returned, the
cap being requested only in the prompt. -/
theorem RagBot.media_cap_amended (images videos : List RagBot.MediaDoc)
    (d : RagBot.MediaSelection) :
    (RagBot.selectMediaStage images videos none).selected_images.length ≤ 3 ∧
    (RagBot.selectMediaStage images videos none).selected_videos.length ≤ 3 ∧
    (RagBot.selectMediaStage images videos (some d)).selected_images =
      d.selected_images ∧
    (RagBot.selectMediaStage images videos (some d)).selected_videos =
      d.selected_videos := by
  refine ⟨?_, ?_, rfl, rfl⟩
  · simp only [RagBot.selectMediaStage, List.length_map, List.length_take]
    omega
  · simp only [RagBot.selectMediaStage, List.length_map, List.length_take]
    omega
